import Mathlib

/-!
Verification of the terminal Snake game (snake_game/simple_game.py and
snake_game/game.py).  The game logic is embedded shallowly: grid positions
are integer pairs, the mutable SnakeGame object becomes a GameState record,
and each Python method becomes a pure function from the old state to the
new state (plus the returned Bool for move_snake).  Randomness
(random.randint in generate_food) is modelled by an explicit stream of
candidate positions, and the unbounded while-True loop by an explicit
fuel argument.
-/

namespace SnakeSpec

/-- A grid cell, (row, column), as in the Python tuples.  Python ints are
unbounded, so coordinates are integers. -/
abbrev Pos : Type := Int × Int

/-- The Direction enum of simple_game.py / game.py. -/
inductive Direction : Type
  | up
  | down
  | left
  | right
deriving DecidableEq

/-- Direction.value: the (dy, dx) unit delta attached to each enum member. -/
def Direction.value : Direction → Int × Int
  | .up => (-1, 0)
  | .down => (1, 0)
  | .left => (0, -1)
  | .right => (0, 1)

/-- The geometric opposite of a direction (spec vocabulary used to state the
reversal rule; the code spells the four comparisons out). -/
def Direction.opposite : Direction → Direction
  | .up => .down
  | .down => .up
  | .left => .right
  | .right => .left

/-- The mutable fields of the Python SnakeGame object that the game logic
touches (board size, score, running flag, snake body head-first, current and
pending direction, food cell).  Timing and terminal fields are omitted: the
transition functions never read them. -/
structure GameState : Type where
  height : Int
  width : Int
  score : Nat
  running : Bool
  snake : List Pos
  direction : Direction
  next_direction : Direction
  food : Pos
deriving DecidableEq

/-- SnakeGame.generate_food: repeatedly draw a random cell in
[1, height-2] x [1, width-2] and return the first one not in the snake.
The random draws are the stream rng (index i is the next draw); fuel bounds
how far we look, modelling the unbounded while-True loop: the Python call
returns p exactly when this returns some p for every large enough fuel. -/
def generate_food (snake : List Pos) (rng : Nat → Pos) : Nat → Nat → Option Pos
  | _, 0 => none
  | i, fuel + 1 =>
    if rng i ∈ snake then generate_food snake rng (i + 1) fuel
    else some (rng i)

/-- The keys the in-game input handler reacts to: the four arrow keys,
q/Q, and anything else (including no pending key). -/
inductive Key : Type
  | arrowUp
  | arrowDown
  | arrowRight
  | arrowLeft
  | keyQ
  | other
deriving DecidableEq

/-- SnakeGame.handle_input: an arrow key sets next_direction unless the
current direction is the exact opposite of the request; q/Q clears the
running flag; anything else leaves the state alone. -/
def handle_input (k : Key) (g : GameState) : GameState :=
  match k with
  | .arrowUp =>
    if g.direction ≠ Direction.down then { g with next_direction := .up } else g
  | .arrowDown =>
    if g.direction ≠ Direction.up then { g with next_direction := .down } else g
  | .arrowRight =>
    if g.direction ≠ Direction.left then { g with next_direction := .right } else g
  | .arrowLeft =>
    if g.direction ≠ Direction.right then { g with next_direction := .left } else g
  | .keyQ => { g with running := false }
  | .other => g

/-- SnakeGame.move_snake.  The pending direction is committed first; then the
new head is computed, the wall and self-collision checks run (in that order,
each returning False and leaving everything else untouched), the head is
prepended, and either the food is eaten (score += 10, food regenerated,
no tail pop) or the tail is popped.  The regenerated food is passed in as
newFood: the caller supplies the value generate_food would produce. -/
def move_snake (newFood : Pos) (g : GameState) : Bool × GameState :=
  let g1 : GameState := { g with direction := g.next_direction }
  let head : Pos := g1.snake.headI
  let d : Int × Int := g1.direction.value
  let new_head : Pos := (head.1 + d.1, head.2 + d.2)
  if new_head.1 ≤ 0 ∨ new_head.1 ≥ g1.height - 1 ∨
      new_head.2 ≤ 0 ∨ new_head.2 ≥ g1.width - 1 then
    (false, g1)
  else if new_head ∈ g1.snake then
    (false, g1)
  else
    let g2 : GameState := { g1 with snake := new_head :: g1.snake }
    if new_head = g2.food then
      (true, { g2 with score := g2.score + 10, food := newFood })
    else
      (true, { g2 with snake := g2.snake.dropLast })

/-- The new head cell a move_snake call will compute: one step from the
current head in the pending direction (the pending direction is committed
before the head moves). -/
def new_head (g : GameState) : Pos :=
  (g.snake.headI.1 + g.next_direction.value.1,
   g.snake.headI.2 + g.next_direction.value.2)

/-- The wall-collision test of move_snake, on the new head. -/
def wall_hit (g : GameState) : Prop :=
  (new_head g).1 ≤ 0 ∨ (new_head g).1 ≥ g.height - 1 ∨
    (new_head g).2 ≤ 0 ∨ (new_head g).2 ≥ g.width - 1

instance (g : GameState) : Decidable (wall_hit g) := by
  unfold wall_hit; infer_instance

/-- SnakeGame.__init__: the snake starts as three cells at the board's
center heading right, score 0, running.  The first food cell (produced by
generate_food) is passed in as food. -/
def initState (height width : Int) (food : Pos) : GameState :=
  { height := height
    width := width
    score := 0
    running := true
    snake := [(height / 2, width / 2), (height / 2, width / 2 - 1),
              (height / 2, width / 2 - 2)]
    direction := .right
    next_direction := .right
    food := food }

/-- The states a game session can reach from g0 by any sequence of
handle_input calls and successful move_snake steps.  A food-eating step uses
a food cell that some generate_food run (on the already-grown snake, as in
the source, where insert(0, new_head) happens before generate_food) can
return. -/
inductive Reachable (g0 : GameState) : GameState → Prop
  | refl : Reachable g0 g0
  | input (k : Key) {g : GameState} :
      Reachable g0 g → Reachable g0 (handle_input k g)
  | move (nf : Pos) {g : GameState} :
      Reachable g0 g →
      (move_snake nf g).1 = true →
      (new_head g = g.food →
        ∃ rng fuel, generate_food (new_head g :: g.snake) rng 0 fuel = some nf) →
      Reachable g0 (move_snake nf g).2

end SnakeSpec

namespace SnakeSpec

/-- move_snake, written with the named helpers: commit the pending
direction, then wall check, self check, and the food/tail branch. -/
theorem move_snake_eq (nf : Pos) (g : GameState) :
    move_snake nf g =
      if wall_hit g then (false, { g with direction := g.next_direction })
      else if new_head g ∈ g.snake then
        (false, { g with direction := g.next_direction })
      else if new_head g = g.food then
        (true, { g with direction := g.next_direction,
                        snake := new_head g :: g.snake,
                        score := g.score + 10, food := nf })
      else
        (true, { g with direction := g.next_direction,
                        snake := (new_head g :: g.snake).dropLast }) := by
  simp only [move_snake, wall_hit, new_head]

/-- Any cell generate_food returns is outside the snake: the loop guard. -/
theorem generate_food_not_mem {snake : List Pos} {rng : Nat → Pos}
    {i fuel : Nat} {p : Pos}
    (h : generate_food snake rng i fuel = some p) : p ∉ snake := by
  induction fuel generalizing i with
  | zero => simp [generate_food] at h
  | succ n ih =>
    rw [generate_food] at h
    by_cases hm : rng i ∈ snake
    · rw [if_pos hm] at h
      exact ih h
    · rw [if_neg hm] at h
      cases h
      exact hm

/-- Any cell generate_food returns is one of the stream's draws. -/
theorem generate_food_mem_stream {snake : List Pos} {rng : Nat → Pos}
    {i fuel : Nat} {p : Pos}
    (h : generate_food snake rng i fuel = some p) : ∃ k, p = rng k := by
  induction fuel generalizing i with
  | zero => simp [generate_food] at h
  | succ n ih =>
    rw [generate_food] at h
    by_cases hm : rng i ∈ snake
    · rw [if_pos hm] at h
      exact ih h
    · rw [if_neg hm] at h
      cases h
      exact ⟨i, rfl⟩

/-- The direction an arrow key requests, if any. -/
def keyDir : Key → Option Direction
  | .arrowUp => some .up
  | .arrowDown => some .down
  | .arrowRight => some .right
  | .arrowLeft => some .left
  | _ => none

/-- C1: on a successful step, eating food grows the snake by exactly one
segment, adds exactly 10 to the score, and relocates the food (via
generate_food, run on the grown snake) to a cell the grown snake does not
occupy; a non-food step pops the tail and leaves length and score
unchanged. -/
theorem growth_score_and_food_per_step (g : GameState) (rng : Nat → Pos)
    (fuel : Nat) (nf : Pos)
    (hgen : new_head g = g.food →
      generate_food (new_head g :: g.snake) rng 0 fuel = some nf)
    (hok : (move_snake nf g).1 = true) :
    (new_head g = g.food →
      (move_snake nf g).2.snake.length = g.snake.length + 1 ∧
      (move_snake nf g).2.score = g.score + 10 ∧
      (move_snake nf g).2.food ∉ (move_snake nf g).2.snake) ∧
    (new_head g ≠ g.food →
      (move_snake nf g).2.snake = (new_head g :: g.snake).dropLast ∧
      (move_snake nf g).2.snake.length = g.snake.length ∧
      (move_snake nf g).2.score = g.score) := by
  by_cases hw : wall_hit g
  · rw [move_snake_eq, if_pos hw] at hok
    simp at hok
  by_cases hs : new_head g ∈ g.snake
  · rw [move_snake_eq, if_neg hw, if_pos hs] at hok
    simp at hok
  by_cases hf : new_head g = g.food
  · rw [move_snake_eq, if_neg hw, if_neg hs, if_pos hf]
    refine ⟨fun _ => ⟨by simp, rfl, generate_food_not_mem (hgen hf)⟩,
      fun hne => absurd hf hne⟩
  · rw [move_snake_eq, if_neg hw, if_neg hs, if_neg hf]
    exact ⟨fun hfe => absurd hfe hf,
      fun _ => ⟨rfl, by simp [List.length_dropLast], rfl⟩⟩

/-- C2: (given the wall check does not fire) a successful step fails with a
self collision exactly when the new head lies on some segment of the body as
it was before the tail pop; in particular stepping onto the current tail
cell ends the game. -/
theorem self_collision_before_pop (g : GameState) (nf : Pos)
    (hw : ¬ wall_hit g) :
    ((move_snake nf g).1 = false ↔ new_head g ∈ g.snake) ∧
    (∀ h : g.snake ≠ [], new_head g = g.snake.getLast h →
      (move_snake nf g).1 = false) := by
  by_cases hs : new_head g ∈ g.snake
  · rw [move_snake_eq, if_neg hw, if_pos hs]
    exact ⟨by simp [hs], fun _ _ => rfl⟩
  · constructor
    · rw [move_snake_eq, if_neg hw, if_neg hs]
      constructor
      · intro hfalse
        by_cases hf : new_head g = g.food
        · rw [if_pos hf] at hfalse; simp at hfalse
        · rw [if_neg hf] at hfalse; simp at hfalse
      · intro hmem; exact absurd hmem hs
    · intro h hlast
      exact absurd (hlast ▸ List.getLast_mem h) hs

/-- C3: the wall-collision branch of move_snake fires exactly on the spec's
inequalities: it always forces a failed step, and when no self collision is
possible the step fails precisely when the new head has row ≤ 0, row ≥
height − 1, col ≤ 0, or col ≥ width − 1. -/
theorem wall_collision_iff (g : GameState) (nf : Pos) :
    (wall_hit g → (move_snake nf g).1 = false) ∧
    (new_head g ∉ g.snake →
      ((move_snake nf g).1 = false ↔
        ((new_head g).1 ≤ 0 ∨ (new_head g).1 ≥ g.height - 1 ∨
         (new_head g).2 ≤ 0 ∨ (new_head g).2 ≥ g.width - 1))) := by
  constructor
  · intro hw
    rw [move_snake_eq, if_pos hw]
  · intro hs
    by_cases hw : wall_hit g
    · rw [move_snake_eq, if_pos hw]
      refine ⟨fun _ => ?_, fun _ => rfl⟩
      simpa [wall_hit] using hw
    · rw [move_snake_eq, if_neg hw, if_neg hs]
      constructor
      · intro hfalse
        by_cases hf : new_head g = g.food
        · rw [if_pos hf] at hfalse; simp at hfalse
        · rw [if_neg hf] at hfalse; simp at hfalse
      · intro hcond
        exact absurd hcond hw

/-- C10: a step rejected by the wall or self-collision check leaves the
state exactly as it was, except that the pending direction has already been
committed as the current direction. -/
theorem failed_move_state_unchanged (g : GameState) (nf : Pos)
    (hfail : (move_snake nf g).1 = false) :
    (move_snake nf g).2 = { g with direction := g.next_direction } := by
  rw [move_snake_eq] at hfail ⊢
  by_cases hw : wall_hit g
  · rw [if_pos hw]
  · rw [if_neg hw] at hfail ⊢
    by_cases hs : new_head g ∈ g.snake
    · rw [if_pos hs]
    · rw [if_neg hs] at hfail
      by_cases hf : new_head g = g.food
      · rw [if_pos hf] at hfail; simp at hfail
      · rw [if_neg hf] at hfail; simp at hfail

/-- C4: handle_input applies an arrow request exactly when it is not the
geometric opposite of the current direction, and ignores it (keeping the
whole state, pending direction included) otherwise; with current direction
Right, a Left request is dropped — so the direction committed by the next
step is still Right — while Up and Down requests take effect. -/
theorem reversal_requests_ignored (g : GameState) :
    (∀ k d, keyDir k = some d → d ≠ g.direction.opposite →
      (handle_input k g).next_direction = d) ∧
    (∀ k d, keyDir k = some d → d = g.direction.opposite →
      handle_input k g = g) ∧
    (g.direction = .right →
      handle_input .arrowLeft g = g ∧
      (handle_input .arrowUp g).next_direction = .up ∧
      (handle_input .arrowDown g).next_direction = .down ∧
      (∀ nf, g.next_direction = .right →
        ((move_snake nf (handle_input .arrowLeft g)).2).direction = .right)) := by
  refine ⟨?_, ?_, ?_⟩
  · intro k d hk hd
    cases k <;> simp [keyDir] at hk <;> subst hk <;>
      cases hdir : g.direction <;>
      simp_all [handle_input, Direction.opposite]
  · intro k d hk hd
    cases k <;> simp [keyDir] at hk <;> subst hk <;>
      cases hdir : g.direction <;>
      simp_all [handle_input, Direction.opposite]
  · intro hr
    have hleft : handle_input .arrowLeft g = g := by
      simp [handle_input, hr]
    refine ⟨hleft, by simp [handle_input, hr], by simp [handle_input, hr], ?_⟩
    intro nf hnext
    rw [hleft, move_snake_eq]
    by_cases hw : wall_hit g
    · simp [if_pos hw, hnext]
    · rw [if_neg hw]
      by_cases hs : new_head g ∈ g.snake
      · simp [if_pos hs, hnext]
      · rw [if_neg hs]
        by_cases hf : new_head g = g.food
        · simp [if_pos hf, hnext]
        · simp [if_neg hf, hnext]

/-- A medium-board state one step left of the food, heading right. -/
def gEat : GameState :=
  { height := 20, width := 40, score := 0, running := true,
    snake := [(10, 20), (10, 19), (10, 18)],
    direction := .right, next_direction := .right, food := (10, 21) }

/-- Witness for C1 at gEat: the step onto the food grows the snake to 4,
scores 10, and the regenerated food avoids the grown snake. -/
theorem growth_score_and_food_per_step_witness :
    (move_snake (5, 5) gEat).2.snake.length = gEat.snake.length + 1 ∧
    (move_snake (5, 5) gEat).2.score = gEat.score + 10 ∧
    (move_snake (5, 5) gEat).2.food ∉ (move_snake (5, 5) gEat).2.snake :=
  (growth_score_and_food_per_step gEat (fun _ => (5, 5)) 1 (5, 5)
    (fun _ => by decide) (by decide)).1 (by decide)

/-- A state whose snake loops back so that the next step lands on the
current tail cell (the segment that would vacate this tick). -/
def gTail : GameState :=
  { height := 20, width := 40, score := 0, running := true,
    snake := [(5, 5), (5, 4), (4, 4), (4, 5)],
    direction := .right, next_direction := .up, food := (15, 15) }

/-- Witness for C2 at gTail: moving into the current tail is a self
collision and ends the game. -/
theorem self_collision_before_pop_witness :
    (move_snake (1, 1) gTail).1 = false :=
  (self_collision_before_pop gTail (1, 1) (by decide)).2 (by decide) (by decide)

/-- A state one step left of the right wall, heading right. -/
def gWall : GameState :=
  { height := 20, width := 40, score := 0, running := true,
    snake := [(10, 38), (10, 37), (10, 36)],
    direction := .right, next_direction := .right, food := (15, 15) }

/-- Witness for C3 at gWall: the new head reaches col = width − 1, so the
step fails with a wall collision. -/
theorem wall_collision_iff_witness :
    (move_snake (5, 5) gWall).1 = false :=
  (wall_collision_iff gWall (5, 5)).1 (by decide)

/-- Witness for C4 at gEat (current direction Right): the Left request is
ignored wholesale while an Up request lands in next_direction. -/
theorem reversal_requests_ignored_witness :
    handle_input .arrowLeft gEat = gEat ∧
    (handle_input .arrowUp gEat).next_direction = .up :=
  ⟨((reversal_requests_ignored gEat).2.2 rfl).1,
   ((reversal_requests_ignored gEat).2.2 rfl).2.1⟩

/-- A state one step below the top wall, heading up. -/
def gWallUp : GameState :=
  { height := 20, width := 40, score := 0, running := true,
    snake := [(1, 5), (2, 5), (3, 5)],
    direction := .up, next_direction := .up, food := (15, 15) }

/-- Witness for C10 at gWallUp: the failed step returns the old state with
only the direction committed. -/
theorem failed_move_state_unchanged_witness :
    (move_snake (5, 5) gWallUp).2 =
      { gWallUp with direction := gWallUp.next_direction } :=
  failed_move_state_unchanged gWallUp (5, 5) (by decide)

/-- The two structural invariants the session maintains: the body never
self-overlaps and the food is never on the body. -/
def Inv (g : GameState) : Prop := g.snake.Nodup ∧ g.food ∉ g.snake

/-- handle_input touches only the pending direction and the running flag,
so it preserves both invariants. -/
theorem inv_handle_input (k : Key) (g : GameState) (h : Inv g) :
    Inv (handle_input k g) := by
  cases k <;> simp only [handle_input] <;>
    first
      | exact h
      | (split_ifs <;> exact h)

/-- A successful move_snake step preserves both invariants, provided a
food-eating step installs a food cell off the grown snake (what
generate_food guarantees). -/
theorem inv_move (nf : Pos) (g : GameState) (h : Inv g)
    (hok : (move_snake nf g).1 = true)
    (hfood : new_head g = g.food → nf ∉ new_head g :: g.snake) :
    Inv (move_snake nf g).2 := by
  by_cases hw : wall_hit g
  · rw [move_snake_eq, if_pos hw] at hok
    simp at hok
  by_cases hs : new_head g ∈ g.snake
  · rw [move_snake_eq, if_neg hw, if_pos hs] at hok
    simp at hok
  have hnodup : (new_head g :: g.snake).Nodup := List.nodup_cons.mpr ⟨hs, h.1⟩
  by_cases hf : new_head g = g.food
  · rw [move_snake_eq, if_neg hw, if_neg hs, if_pos hf]
    exact ⟨hnodup, hfood hf⟩
  · rw [move_snake_eq, if_neg hw, if_neg hs, if_neg hf]
    constructor
    · exact (List.dropLast_sublist _).nodup hnodup
    · intro hmem
      have hmem2 : g.food ∈ new_head g :: g.snake :=
        (List.dropLast_sublist _).subset hmem
      rcases List.mem_cons.mp hmem2 with heq | hmem3
      · exact hf heq.symm
      · exact h.2 hmem3

/-- Both invariants hold in every state reachable from a state that has
them: induction over the session's handle_input and move_snake steps. -/
theorem reachable_inv {g0 g : GameState} (h0 : Inv g0)
    (h : Reachable g0 g) : Inv g := by
  induction h with
  | refl => exact h0
  | input k _ ih => exact inv_handle_input k _ ih
  | move nf _ hok hgen ih =>
    refine inv_move nf _ ih hok ?_
    intro hf
    obtain ⟨rng, fuel, hg⟩ := hgen hf
    exact generate_food_not_mem hg

/-- The initial three-segment snake satisfies both invariants as soon as
the initial food (a generate_food result) avoids it. -/
theorem initState_inv (h w : Int) (f : Pos)
    (hf : f ∉ (initState h w f).snake) : Inv (initState h w f) := by
  refine ⟨?_, hf⟩
  simp [initState, Prod.ext_iff]
  omega

/-- C5: in every state reachable from the initial game state by input
handling and successful moves, the snake body is duplicate-free. -/
theorem reachable_snake_nodup (h w : Int) (f : Pos) (g : GameState)
    (hf : f ∉ (initState h w f).snake)
    (hr : Reachable (initState h w f) g) : g.snake.Nodup :=
  (reachable_inv (initState_inv h w f hf) hr).1

/-- C6: in every state reachable from the initial game state by input
handling and successful moves, the food cell is not on the snake body. -/
theorem reachable_food_off_snake (h w : Int) (f : Pos) (g : GameState)
    (hf : f ∉ (initState h w f).snake)
    (hr : Reachable (initState h w f) g) : g.food ∉ g.snake :=
  (reachable_inv (initState_inv h w f hf) hr).2

/-- Witness for C5 on the 20 × 40 board with initial food at (10, 25). -/
theorem reachable_snake_nodup_witness :
    (initState 20 40 (10, 25)).snake.Nodup :=
  reachable_snake_nodup 20 40 (10, 25) (initState 20 40 (10, 25))
    (by decide) Reachable.refl

/-- Witness for C6 on the 15 × 30 board with initial food at (7, 20). -/
theorem reachable_food_off_snake_witness :
    (initState 15 30 (7, 20)).food ∉ (initState 15 30 (7, 20)).snake :=
  reachable_food_off_snake 15 30 (7, 20) (initState 15 30 (7, 20))
    (by decide) Reachable.refl

/-- The cells random.randint(1, height-2) x random.randint(1, width-2) can
produce: the board interior, rows 1..height-2 by cols 1..width-2. -/
def interiorF (height width : Int) : Finset Pos :=
  Finset.Ico 1 (height - 1) ×ˢ Finset.Ico 1 (width - 1)

/-- Manhattan distance between two cells (spec vocabulary). -/
def manhattan (p q : Pos) : Nat := (p.1 - q.1).natAbs + (p.2 - q.2).natAbs

/-- generate_food returns some p exactly when p is the first draw of the
stream not on the snake, within the fuel bound: a complete functional
characterization of the loop. -/
theorem generate_food_eq_some_aux {snake : List Pos} {rng : Nat → Pos} :
    ∀ (fuel i : Nat) (p : Pos), generate_food snake rng i fuel = some p →
      ∃ n, n < fuel ∧ rng (i + n) = p ∧ p ∉ snake ∧
        ∀ m, m < n → rng (i + m) ∈ snake := by
  intro fuel
  induction fuel with
  | zero => intro i p h; simp [generate_food] at h
  | succ f ih =>
    intro i p h
    rw [generate_food] at h
    by_cases hm : rng i ∈ snake
    · rw [if_pos hm] at h
      obtain ⟨n, hn, hp, hfree, hall⟩ := ih (i + 1) p h
      refine ⟨n + 1, by omega, ?_, hfree, ?_⟩
      · have : i + (n + 1) = i + 1 + n := by omega
        rw [this]; exact hp
      · intro m hm2
        cases m with
        | zero => simpa using hm
        | succ m2 =>
          have : i + (m2 + 1) = i + 1 + m2 := by omega
          rw [this]; exact hall m2 (by omega)
    · rw [if_neg hm] at h
      cases h
      exact ⟨0, by omega, by simp, hm, by omega⟩

/-- Converse direction: if index n is the first free draw and the fuel
covers it, the loop returns that draw. -/
theorem generate_food_of_first_free {snake : List Pos} {rng : Nat → Pos} :
    ∀ (n i fuel : Nat), n < fuel → rng (i + n) ∉ snake →
      (∀ m, m < n → rng (i + m) ∈ snake) →
      generate_food snake rng i fuel = some (rng (i + n)) := by
  intro n
  induction n with
  | zero =>
    intro i fuel hfuel hfree _
    cases fuel with
    | zero => omega
    | succ f =>
      rw [generate_food, if_neg (by simpa using hfree)]
      simp
  | succ k ih =>
    intro i fuel hfuel hfree hall
    cases fuel with
    | zero => omega
    | succ f =>
      rw [generate_food, if_pos (by simpa using hall 0 (by omega))]
      have h1 : i + (k + 1) = i + 1 + k := by omega
      rw [h1] at hfree
      have h2 := ih (i + 1) f (by omega) hfree ?_
      · rw [h2, h1]
      · intro m hm
        have : i + 1 + m = i + (m + 1) := by omega
        rw [this]
        exact hall (m + 1) (by omega)

/-- Amended C7: generate_food simply returns the first randomly drawn cell
not occupied by the snake — and conversely returns that cell whenever the
fuel reaches the first free draw.  There is no attempt budget, no Manhattan
distance ≥ 3 preference, and no separate fallback phase; the draws stay in
the interior by randint's range, so the result does when the stream does. -/
theorem generate_food_first_free (snake : List Pos) (rng : Nat → Pos)
    (fuel : Nat) (p : Pos) :
    generate_food snake rng 0 fuel = some p ↔
      ∃ n, n < fuel ∧ rng n = p ∧ p ∉ snake ∧
        ∀ m, m < n → rng m ∈ snake := by
  constructor
  · intro h
    obtain ⟨n, hn, hp, hfree, hall⟩ := generate_food_eq_some_aux fuel 0 p h
    exact ⟨n, hn, by simpa using hp, hfree, fun m hm => by simpa using hall m hm⟩
  · rintro ⟨n, hn, hp, hfree, hall⟩
    have h := @generate_food_of_first_free snake rng n 0 fuel hn
      (by rw [Nat.zero_add, hp]; exact hfree)
      (fun m hm => by rw [Nat.zero_add]; exact hall m hm)
    rw [Nat.zero_add, hp] at h
    exact h

/-- Modelled from the spec: the placeFood policy the spec describes —
attempt up to a fixed budget of random draws, preferring a free cell at
Manhattan distance ≥ 3 from the head, then fall back to any free cell.
The preference phase over the first budget draws: -/
def placeFood_pref (snake : List Pos) (head : Pos) (rng : Nat → Pos) :
    Nat → Nat → Option Pos
  | _, 0 => none
  | i, b + 1 =>
    if rng i ∉ snake ∧ 3 ≤ manhattan (rng i) head then some (rng i)
    else placeFood_pref snake head rng (i + 1) b

/-- Modelled from the spec: the full claimed policy — preference phase with
the given budget, then the any-free-cell fallback. -/
def placeFood_claimed (snake : List Pos) (head : Pos) (rng : Nat → Pos)
    (budget fallbackFuel : Nat) : Option Pos :=
  match placeFood_pref snake head rng 0 budget with
  | some p => some p
  | none => generate_food snake rng 0 fallbackFuel

/-- The random stream of the C7 counterexample: the first draw is adjacent
to the head, every later draw far from it. -/
def rngNear : Nat → Pos := fun n => if n = 0 then (5, 6) else (10, 10)

/-- Stream for the amended-C7 witness: the first draw is on the snake, the
second is free. -/
def rngNearW : Nat → Pos := fun n => if n = 0 then (5, 5) else (2, 2)

/-- Counterexample for C7: on the same stream of draws the code takes the
very first free cell, one step from the head, while the claimed
budget-plus-preference policy would take the distance-≥-3 cell offered on
the second draw.  generate_food has no preference phase. -/
theorem placeFood_policy_counterexample :
    generate_food [(5, 5), (5, 4), (5, 3)] rngNear 0 100 = some (5, 6) ∧
    placeFood_claimed [(5, 5), (5, 4), (5, 3)] (5, 5) rngNear 100 100 =
      some (10, 10) ∧
    ((5, 6) : Pos) ≠ (10, 10) ∧
    manhattan (5, 6) (5, 5) = 1 := by
  refine ⟨?_, ?_, by decide, by decide⟩
  · rw [generate_food]
    norm_num [rngNear]
  · rw [placeFood_claimed]
    rw [placeFood_pref, placeFood_pref]
    norm_num [rngNear, manhattan]

/-- Witness for the amended C7: a concrete run where the second draw is the
first free one, so the loop skips exactly the occupied first draw. -/
theorem generate_food_first_free_witness :
    generate_food [(5, 5)] rngNearW 0 3 = some (2, 2) := by
  rw [generate_food_first_free]
  exact ⟨1, by omega, by decide, by decide, fun m hm => by
    interval_cases m
    decide⟩

/-- C9: whenever the snake covers strictly fewer cells than the board
interior, the random-until-free loop of generate_food reaches a free
interior cell — for every draw stream that respects randint's range and
(as a uniform random stream does with probability one) eventually offers
every interior cell. -/
theorem food_loop_terminates (height width : Int) (snake : List Pos)
    (rng : Nat → Pos)
    (hrange : ∀ n, rng n ∈ interiorF height width)
    (hfair : ∀ p ∈ interiorF height width, ∃ n, rng n = p)
    (hcount : snake.length < (interiorF height width).card) :
    ∃ fuel p, generate_food snake rng 0 fuel = some p ∧
      p ∉ snake ∧ p ∈ interiorF height width := by
  have hcard : snake.toFinset.card < (interiorF height width).card :=
    lt_of_le_of_lt snake.toFinset_card_le hcount
  have hnsub : ¬ interiorF height width ⊆ snake.toFinset := fun hsub =>
    absurd (Finset.card_le_card hsub) (not_le.mpr hcard)
  obtain ⟨c, hc_in, hc_not⟩ := Finset.not_subset.mp hnsub
  obtain ⟨n, hn⟩ := hfair c hc_in
  have hfree : ∃ m, rng m ∉ snake :=
    ⟨n, by rw [hn]; exact fun hmem => hc_not (List.mem_toFinset.mpr hmem)⟩
  have hNfree : rng (Nat.find hfree) ∉ snake := Nat.find_spec hfree
  have hall : ∀ m, m < Nat.find hfree → rng m ∈ snake := fun m hm =>
    not_not.mp (Nat.find_min hfree hm)
  have h := @generate_food_of_first_free snake rng (Nat.find hfree) 0
    (Nat.find hfree + 1) (by omega)
    (by rw [Nat.zero_add]; exact hNfree)
    (fun m hm => by rw [Nat.zero_add]; exact hall m hm)
  rw [Nat.zero_add] at h
  exact ⟨Nat.find hfree + 1, rng (Nat.find hfree), h, hNfree,
    hrange (Nat.find hfree)⟩

/-- A draw stream for the C9 witness: always the single interior cell of a
3 × 3 board. -/
def rngOne : Nat → Pos := fun _ => (1, 1)

/-- Witness for C9: empty snake on the 3 × 3 board; the loop finds the one
interior cell. -/
theorem food_loop_terminates_witness :
    ∃ fuel p, generate_food [] rngOne 0 fuel = some p ∧
      p ∉ ([] : List Pos) ∧ p ∈ interiorF 3 3 :=
  food_loop_terminates 3 3 [] rngOne
    (fun _ => show ((1 : Int), (1 : Int)) ∈ interiorF 3 3 by decide)
    (fun p hp => ⟨0, by
      rcases p with ⟨a, b⟩
      rw [interiorF, Finset.mem_product, Finset.mem_Ico, Finset.mem_Ico] at hp
      show ((1 : Int), (1 : Int)) = (a, b)
      rw [Prod.mk.injEq]
      omega⟩)
    (by decide)

/-- An entry of the persisted score list: score, difficulty label, date
string, as built by ScoreManager.add_score. -/
structure ScoreEntry : Type where
  score : Int
  difficulty : String
  date : String
deriving DecidableEq

/-- The comparison Python's scores.sort(key score, reverse True) sorts by:
descending score, stable on ties. -/
def byScoreDesc (a b : ScoreEntry) : Bool := decide (b.score ≤ a.score)

/-- ScoreManager.add_score: append the new entry, sort descending by score
(a stable sort, like Python's), keep only the top 10.  (The datetime stamp
is part of the entry the caller builds.) -/
def add_score (scores : List ScoreEntry) (e : ScoreEntry) : List ScoreEntry :=
  ((scores ++ [e]).mergeSort byScoreDesc).take 10

/-- ScoreManager.get_top_scores: the first limit entries of the stored
list. -/
def get_top_scores (scores : List ScoreEntry) (limit : Nat) : List ScoreEntry :=
  scores.take limit

/-- The stored list is descending by score. -/
def SortedDesc (l : List ScoreEntry) : Prop :=
  l.Pairwise (fun a b => b.score ≤ a.score)

/-- add_score always re-establishes descending order. -/
theorem sortedDesc_add_score (s : List ScoreEntry) (e : ScoreEntry) :
    SortedDesc (add_score s e) := by
  unfold add_score SortedDesc
  refine List.Pairwise.sublist (List.take_sublist _ _) ?_
  have htrans : ∀ a b c : ScoreEntry, byScoreDesc a b → byScoreDesc b c →
      byScoreDesc a c := by
    intro a b c hab hbc
    simp only [byScoreDesc, decide_eq_true_eq] at *
    exact le_trans hbc hab
  have htotal : ∀ a b : ScoreEntry, byScoreDesc a b || byScoreDesc b a := by
    intro a b
    simp only [byScoreDesc, Bool.or_eq_true, decide_eq_true_eq]
    exact le_total b.score a.score
  have h := @List.sorted_mergeSort ScoreEntry byScoreDesc htrans htotal (s ++ [e])
  exact h.imp (fun hab => of_decide_eq_true hab)

/-- add_score never lets the store exceed 10 entries. -/
theorem length_add_score_le (s : List ScoreEntry) (e : ScoreEntry) :
    (add_score s e).length ≤ 10 := by
  unfold add_score
  rw [List.length_take]
  omega

/-- C8: from a well-formed store (at most 10 entries, descending), any
sequence of add_score calls keeps it at most 10 entries and descending,
and get_top_scores limit is exactly the first min(limit, size) entries;
in particular on a 12-entry (loaded) descending store, get_top_scores 5
returns exactly 5 entries, still descending. -/
theorem score_store_top10_sorted :
    (∀ (init ops : List ScoreEntry), init.length ≤ 10 → SortedDesc init →
      (ops.foldl add_score init).length ≤ 10 ∧
      SortedDesc (ops.foldl add_score init) ∧
      ∀ limit, get_top_scores (ops.foldl add_score init) limit =
          (ops.foldl add_score init).take limit ∧
        (get_top_scores (ops.foldl add_score init) limit).length =
          min limit (ops.foldl add_score init).length) ∧
    (∀ s : List ScoreEntry, s.length = 12 → SortedDesc s →
      (get_top_scores s 5).length = 5 ∧ SortedDesc (get_top_scores s 5)) := by
  constructor
  · intro init ops
    revert init
    induction ops with
    | nil =>
      intro init h1 h2
      exact ⟨h1, h2, fun limit => ⟨rfl, List.length_take _ _⟩⟩
    | cons e ops ih =>
      intro init _ _
      exact ih (add_score init e) (length_add_score_le init e)
        (sortedDesc_add_score init e)
  · intro s h12 hs
    constructor
    · rw [get_top_scores, List.length_take, h12]; omega
    · exact hs.sublist (List.take_sublist _ _)

/-- Sample entries for the C8 witness. -/
def entryEasy30 : ScoreEntry := ⟨30, "Easy", "2026-01-01 10:00"⟩

/-- Second sample entry for the C8 witness. -/
def entryHard50 : ScoreEntry := ⟨50, "Hard", "2026-01-02 10:00"⟩

/-- Witness for C8: recording two scores into an empty store keeps it at
most 10 entries and descending. -/
theorem score_store_top10_sorted_witness :
    (([entryEasy30, entryHard50] : List ScoreEntry).foldl add_score []).length ≤ 10 ∧
    SortedDesc (([entryEasy30, entryHard50] : List ScoreEntry).foldl add_score []) :=
  ⟨(score_store_top10_sorted.1 [] [entryEasy30, entryHard50]
      (by decide) List.Pairwise.nil).1,
   (score_store_top10_sorted.1 [] [entryEasy30, entryHard50]
      (by decide) List.Pairwise.nil).2.1⟩

end SnakeSpec
